import Mathlib

/-!
Shallow embedding of the KHARMA constraint-damping (B_CD) divergence-cleaning
module (src/kharma/b_cd/b_cd.cpp), the HARM driver task list
(src/kharma/harm.cpp) and the Rest problem initialization
(src/kharma/prob/rest_conserve.cpp).

Reals are modelled by the rationals.  External math-library functions
(square root, pow) are uninterpreted parameters, matching the spec's
treatment of the Geometry Provider and math library as external
collaborators.  Per-block arrays are total functions on integer indices;
a kernel over an index range is embedded as a pointwise functional update
guarded by range membership (cells of one loop are independent, as the
source's data-parallel loops require).
-/

/-- Completion status reported by tasks (parthenon TaskStatus). -/
inductive TStatus
  | complete
  | incomplete
  | fail
deriving DecidableEq, Repr

/-- Locations at which geometry is sampled (Loci::center, Loci::face1, Loci::face2). -/
inductive Loci
  | center
  | face1
  | face2
deriving DecidableEq, Repr

/-- Flux directions X1DIR, X2DIR, X3DIR. -/
inductive Dir
  | X1
  | X2
  | X3
deriving DecidableEq, Repr

/-- Geometry Provider for one block: inverse metric components, metric
determinant and grid spacings, indexed as in the source
(gcon(loc, j, i, mu, nu), gdet(loc, j, i), dx1v(i), dx2v(j), dx3v(k)). -/
structure Coords where
  gcon : Loci → ℤ → ℤ → Fin 4 → Fin 4 → ℚ
  gdet : Loci → ℤ → ℤ → ℚ
  dx1v : ℤ → ℚ
  dx2v : ℤ → ℚ
  dx3v : ℤ → ℚ

/-- Spatial vector-component index v (0,1,2 for V1,V2,V3) as the spacetime
index v+1 used in gcon lookups. -/
def vIdx (v : Fin 3) : Fin 4 := ⟨v.val + 1, by omega⟩

/-- Inclusive index range with start s and end e (parthenon IndexRange). -/
structure IRange where
  s : ℤ
  e : ℤ
deriving DecidableEq, Repr

/-- Integer list s, s+1, ..., e. -/
def IRange.toList (r : IRange) : List ℤ :=
  (List.range (r.e + 1 - r.s).toNat).map (fun n : ℕ => r.s + (n : ℤ))

/-- Membership of an index in an inclusive range. -/
def IRange.holds (r : IRange) (x : ℤ) : Prop := r.s ≤ x ∧ x ≤ r.e

instance (r : IRange) (x : ℤ) : Decidable (r.holds x) := by
  unfold IRange.holds; infer_instance

/-- Index bounds of a mesh in all three axes (the interior IndexRanges
ib, jb, kb obtained from GetBoundsI/J/K). -/
structure Bounds where
  ib : IRange
  jb : IRange
  kb : IRange

/-- Membership of a cell (k, j, i) in the bounds. -/
def Bounds.holds (bd : Bounds) (k j i : ℤ) : Prop :=
  bd.kb.holds k ∧ bd.jb.holds j ∧ bd.ib.holds i

instance (bd : Bounds) (k j i : ℤ) : Decidable (bd.holds k j i) := by
  unfold Bounds.holds; infer_instance

/-- Fields of one MeshBlockData container used by B_CD::UtoP: conserved and
primitive B (3 components) and psi, as cell-indexed arrays (k, j, i). -/
structure BlockData where
  consB : Fin 3 → ℤ → ℤ → ℤ → ℚ
  primsB : Fin 3 → ℤ → ℤ → ℤ → ℚ
  consPsi : ℤ → ℤ → ℤ → ℚ
  primsPsi : ℤ → ℤ → ℤ → ℚ

/-- Fields of one MeshData container used by B_CD::AddSource and
B_CD::MaxDivB: per-block (first index b) conserved/primitive B and psi
cell data together with their face fluxes. -/
structure MeshBData where
  consB : ℕ → Fin 3 → ℤ → ℤ → ℤ → ℚ
  primsB : ℕ → Fin 3 → ℤ → ℤ → ℤ → ℚ
  consPsi : ℕ → ℤ → ℤ → ℤ → ℚ
  primsPsi : ℕ → ℤ → ℤ → ℤ → ℚ
  fluxB : ℕ → Dir → Fin 3 → ℤ → ℤ → ℤ → ℚ
  fluxPsi : ℕ → Dir → ℤ → ℤ → ℤ → ℚ

/-- Per-cell finite-difference divergence estimate of B computed from face
fluxes, shared by AddSource (b_cd.cpp lines 161-163), MaxDivB (lines
218-220) and FillOutput: flux difference over spacing along axis 1 plus
axis 2, plus the axis-3 term only when ndim > 2. -/
def divBcell (G : Coords) (flux : Dir → Fin 3 → ℤ → ℤ → ℤ → ℚ) (ndim : ℕ)
    (k j i : ℤ) : ℚ :=
  (flux Dir.X1 0 k j (i + 1) - flux Dir.X1 0 k j i) / G.dx1v i
    + (flux Dir.X2 1 k (j + 1) i - flux Dir.X2 1 k j i) / G.dx2v j
    + (if 2 < ndim then
        (flux Dir.X3 2 (k + 1) j i - flux Dir.X3 2 k j i) / G.dx3v k
      else 0)

/-- B_CD::UtoP (b_cd.cpp lines 102-128): for every cell of the requested
domain, primitive B and psi are the conserved values divided by the
cell-centered metric determinant.  There is no dimensionality check in
the source: the kernel runs for any ndim. -/
def utoP (G : Coords) (bd : Bounds) (rc : BlockData) : BlockData :=
  { rc with
    primsB := fun v k j i =>
      if bd.holds k j i then rc.consB v k j i / G.gdet Loci.center j i
      else rc.primsB v k j i
    primsPsi := fun k j i =>
      if bd.holds k j i then rc.consPsi k j i / G.gdet Loci.center j i
      else rc.primsPsi k j i }

/-- Increment added to B_DU at component v, cell (k,j,i) by the AddSource
kernel (b_cd.cpp lines 166-178): alpha-weighted psi-flux gradients
contracted with gcon rows, plus the gcon time-row times alpha^2 times the
local divergence estimate.  sqrt is the external math square root. -/
def bIncr (G : Coords) (sqrt : ℚ → ℚ) (ndim : ℕ)
    (fluxB : Dir → Fin 3 → ℤ → ℤ → ℤ → ℚ) (fluxPsi : Dir → ℤ → ℤ → ℤ → ℚ)
    (v : Fin 3) (k j i : ℤ) : ℚ :=
  let alpha_c : ℚ := 1 / sqrt (-(G.gcon Loci.center j i 0 0))
  let divB : ℚ := divBcell G fluxB ndim k j i
  alpha_c * G.gcon Loci.center j i (vIdx v) 1
      * (fluxPsi Dir.X1 k j (i + 1) - fluxPsi Dir.X1 k j i) / G.dx1v i
    + alpha_c * G.gcon Loci.center j i (vIdx v) 2
      * (fluxPsi Dir.X2 k (j + 1) i - fluxPsi Dir.X2 k j i) / G.dx2v j
    + (if 2 < ndim then
        alpha_c * G.gcon Loci.center j i (vIdx v) 3
          * (fluxPsi Dir.X3 (k + 1) j i - fluxPsi Dir.X3 k j i) / G.dx3v k
      else 0)
    + G.gcon Loci.center j i 0 (vIdx v) * alpha_c * alpha_c * divB

/-- Face-1 lapse-quantity gradient dalpha1 (b_cd.cpp lines 180-181):
difference of (1/sqrt(-gcon00))/gdet at face1 of cells i+1 and i, divided
by dx1v(i). -/
def dalpha1 (G : Coords) (sqrt : ℚ → ℚ) (j i : ℤ) : ℚ :=
  ((1 / sqrt (-(G.gcon Loci.face1 j (i + 1) 0 0))) / G.gdet Loci.face1 j (i + 1)
    - (1 / sqrt (-(G.gcon Loci.face1 j i 0 0))) / G.gdet Loci.face1 j i)
    / G.dx1v i

/-- Face-2 lapse-quantity gradient dalpha2 (b_cd.cpp lines 182-183).
Note the source divides by G.dx2v(i) - the axis-2 spacing evaluated at the
first-axis index i, not at j. -/
def dalpha2 (G : Coords) (sqrt : ℚ → ℚ) (j i : ℤ) : ℚ :=
  ((1 / sqrt (-(G.gcon Loci.face2 (j + 1) i 0 0))) / G.gdet Loci.face2 (j + 1) i
    - (1 / sqrt (-(G.gcon Loci.face2 j i 0 0))) / G.gdet Loci.face2 j i)
    / G.dx2v i

/-- Increment added to psi_DU at cell (k,j,i) by the AddSource kernel
(b_cd.cpp line 185).  The packs B_U and B_DU are views of the same
underlying cons.B data of md, and the VLOOP writes of line 166-178 run
before line 185 in the same cell's loop body, so the B values read at
line 185 already include this cell's bIncr contributions. -/
def psiIncr (G : Coords) (sqrt : ℚ → ℚ) (ndim : ℕ) (lambda : ℚ)
    (consB : Fin 3 → ℤ → ℤ → ℤ → ℚ)
    (fluxB : Dir → Fin 3 → ℤ → ℤ → ℤ → ℚ) (fluxPsi : Dir → ℤ → ℤ → ℤ → ℚ)
    (consPsi : ℤ → ℤ → ℤ → ℚ) (k j i : ℤ) : ℚ :=
  let alpha_c : ℚ := 1 / sqrt (-(G.gcon Loci.center j i 0 0))
  let bRead : Fin 3 → ℚ := fun v =>
    consB v k j i + bIncr G sqrt ndim fluxB fluxPsi v k j i
  bRead 0 * dalpha1 G sqrt j i + bRead 1 * dalpha2 G sqrt j i
    - alpha_c * lambda * consPsi k j i

/-- B_CD::AddSource (b_cd.cpp lines 130-191).  Returns the updated md,
the updated mdudt and the task status.  If ndim < 2 it returns at once
with both containers unchanged.  Otherwise, over every block b < nblocks
and every interior cell: the pack B_DU is built from md (line 144), so
the B increments land in md's cons.B, while psi_DU is built from mdudt
(line 141), so the psi increments land in mdudt's cons.psi_cd. -/
def addSource (coords : ℕ → Coords) (sqrt : ℚ → ℚ) (ndim : ℕ) (lambda : ℚ)
    (bd : Bounds) (nblocks : ℕ) (md mdudt : MeshBData) :
    MeshBData × MeshBData × TStatus :=
  if ndim < 2 then (md, mdudt, TStatus.complete)
  else
    ({ md with
        consB := fun b v k j i =>
          if b < nblocks ∧ bd.holds k j i then
            md.consB b v k j i
              + bIncr (coords b) sqrt ndim (md.fluxB b) (md.fluxPsi b) v k j i
          else md.consB b v k j i },
     { mdudt with
        consPsi := fun b k j i =>
          if b < nblocks ∧ bd.holds k j i then
            mdudt.consPsi b k j i
              + psiIncr (coords b) sqrt ndim lambda (md.consB b) (md.fluxB b)
                  (md.fluxPsi b) (md.consPsi b) k j i
          else mdudt.consPsi b k j i },
     TStatus.complete)

/-- Index ranges the MaxDivB reduction runs over (b_cd.cpp lines 209-211):
the stencil reads one zone right, so the last interior layer is dropped
along axes 1 and 2 always, and along axis 3 only when ndim > 2. -/
def reduceRanges (bd : Bounds) (ndim : ℕ) : Bounds :=
  { ib := ⟨bd.ib.s, bd.ib.e - 1⟩
    jb := ⟨bd.jb.s, bd.jb.e - 1⟩
    kb := if 2 < ndim then ⟨bd.kb.s, bd.kb.e - 1⟩ else bd.kb }

/-- List of per-cell divergence estimates visited by the MaxDivB reduction,
over all blocks b < nblocks and all cells of the reduced ranges. -/
def divVals (coords : ℕ → Coords) (ndim : ℕ) (bd : Bounds) (nblocks : ℕ)
    (md : MeshBData) : List ℚ :=
  let r := reduceRanges bd ndim
  (List.range nblocks).flatMap (fun b =>
    r.kb.toList.flatMap (fun k =>
      r.jb.toList.flatMap (fun j =>
        r.ib.toList.map (fun i =>
          divBcell (coords b) (md.fluxB b) ndim k j i))))

/-- B_CD::MaxDivB (b_cd.cpp lines 195-226): 0 when ndim < 2, otherwise a
Kokkos Max reduction of the per-cell divergence estimates over the reduced
interior ranges of all local blocks (modelled as a fold of max; the
reduction over an empty range is left as 0, no theorem depends on it). -/
def maxDivB (coords : ℕ → Coords) (ndim : ℕ) (bd : Bounds) (nblocks : ℕ)
    (md : MeshBData) : ℚ :=
  if ndim < 2 then 0
  else
    match divVals coords ndim bd nblocks md with
    | [] => 0
    | x :: xs => xs.foldl max x

/-- Kinds of tasks that HARMDriver::MakeTaskList (harm.cpp lines 51-140)
inserts, in source order. -/
inductive TaskKind
  | startRecv
  | calculateFlux
  | sendFlux
  | recvFlux
  | fluxDivergence
  | sourceTerm
  | updateContainer
  | sendBound
  | recvBound
  | fillFromBufs
  | clearCommFlags
  | prolongBound
  | setParthenonBC
  | setCustomBC
  | fillDerived
  | estimateNewDt
  | tagRefine
deriving DecidableEq, Repr

/-- Result of building one stage's task list: whether the extra stage
containers were created (only at stage 1) and the ordered list of tasks. -/
structure StageList where
  createsStageContainers : Bool
  tasks : List TaskKind

/-- HARMDriver::MakeTaskList (harm.cpp lines 51-140): the fixed chain of
per-stage tasks, then - only when stage equals the integrator's final
stage - the next-timestep estimation task, and additionally the
refinement-condition check task when the mesh is adaptive. -/
def makeTaskList (stage nstages : ℕ) (adaptive : Bool) : StageList :=
  { createsStageContainers := stage = 1
    tasks :=
      [TaskKind.startRecv, TaskKind.calculateFlux, TaskKind.sendFlux,
       TaskKind.recvFlux, TaskKind.fluxDivergence, TaskKind.sourceTerm,
       TaskKind.updateContainer, TaskKind.sendBound, TaskKind.recvBound,
       TaskKind.fillFromBufs, TaskKind.clearCommFlags, TaskKind.prolongBound,
       TaskKind.setParthenonBC, TaskKind.setCustomBC, TaskKind.fillDerived]
      ++ (if stage = nstages then
            [TaskKind.estimateNewDt] ++ (if adaptive then [TaskKind.tagRefine] else [])
          else []) }

/-- Values held in a parthenon parameter table: reals and booleans suffice
for the parameters InitializeRest touches. -/
inductive PVal
  | r (x : ℚ)
  | b (x : Bool)
deriving DecidableEq, Repr

/-- Parameter table of a package (Params), as an association list in
insertion order. -/
abbrev ParamsT : Type := List (String × PVal)

/-- Params::hasKey. -/
def hasKey (p : ParamsT) (k : String) : Bool :=
  (List.find? (fun kv => kv.1 == k) p).isSome

/-- Params::Add appends a new (key, value) entry. -/
def addP (p : ParamsT) (k : String) (v : PVal) : ParamsT :=
  p ++ [(k, v)]

/-- Lookup of a key's value (first match, matching hasKey). -/
def getP (p : ParamsT) (k : String) : Option PVal :=
  (List.find? (fun kv => kv.1 == k) p).map Prod.snd

/-- ParameterInput: input-file tables keyed by (block, parameter name),
split by type as reals and booleans. -/
structure Pin where
  reals : List ((String × String) × ℚ)
  bools : List ((String × String) × Bool)

/-- Lookup of a real input parameter. -/
def Pin.findReal (pin : Pin) (blk nm : String) : Option ℚ :=
  (List.find? (fun kv => kv.1 == (blk, nm)) pin.reals).map Prod.snd

/-- Lookup of a boolean input parameter. -/
def Pin.findBool (pin : Pin) (blk nm : String) : Option Bool :=
  (List.find? (fun kv => kv.1 == (blk, nm)) pin.bools).map Prod.snd

/-- ParameterInput::GetOrAddReal: return the stored value when present,
otherwise store and return the default. -/
def Pin.getOrAddReal (pin : Pin) (blk nm : String) (d : ℚ) : ℚ × Pin :=
  match pin.findReal blk nm with
  | some x => (x, pin)
  | none => (d, { pin with reals := pin.reals ++ [((blk, nm), d)] })

/-- ParameterInput::GetOrAddBoolean. -/
def Pin.getOrAddBool (pin : Pin) (blk nm : String) (d : Bool) : Bool × Pin :=
  match pin.findBool blk nm with
  | some x => (x, pin)
  | none => (d, { pin with bools := pin.bools ++ [((blk, nm), d)] })

/-- ParameterInput::SetReal: overwrite or insert a real parameter. -/
def Pin.setReal (pin : Pin) (blk nm : String) (x : ℚ) : Pin :=
  { pin with
    reals := (pin.reals.filter (fun kv => !(kv.1 == (blk, nm)))) ++ [((blk, nm), x)] }

/-- Lazy defaulting used by InitializeRest on the GRMHD parameter table:
if(!params.hasKey(k)) params.Add(k, v). -/
def lazyAdd (p : ParamsT) (k : String) (v : PVal) : ParamsT :=
  if hasKey p k then p else addP p k v

/-- Result of InitializeRest: the mutated input table, the mutated GRMHD
parameter table, and the returned task status. -/
structure RestInit where
  pin : Pin
  gparams : ParamsT
  status : TStatus

/-- InitializeRest (rest_conserve.cpp lines 6-43).  Reads/defaults the
rest-problem inputs; lazily adds rho0, v0, u0, q, context_boundaries (and
ke0 when the Electrons package is present) to the GRMHD parameter table;
sets the time limit to dyntimes*u0/|q| only when set_tlim holds, q is
nonzero and not (q < 0 with dyntimes > 1).  powf is the external math pow.
The trailing SetRest call touches only the block's primitive fields, which
these claims do not concern, and returns complete. -/
def initializeRest (powf : ℚ → ℚ → ℚ) (pin0 : Pin) (gparams0 : ParamsT)
    (hasElectrons : Bool) (fel0 game : ℚ) : RestInit :=
  let st := pin0.getOrAddBool "rest" "set_tlim" false
  let pu := st.2.getOrAddReal "rest" "u0" 1
  let pr := pu.2.getOrAddReal "rest" "rho0" 1
  let pv := pr.2.getOrAddReal "rest" "v0" 1
  let q : ℚ := match pv.2.findReal "rest" "q" with
    | some x => x
    | none => 0
  let pc := pv.2.getOrAddBool "rest" "context_boundaries" false
  let pd := pc.2.getOrAddReal "rest" "dyntimes" (1 / 2)
  let g1 := lazyAdd gparams0 "rho0" (PVal.r pr.1)
  let g2 := lazyAdd g1 "v0" (PVal.r pv.1)
  let g3 := lazyAdd g2 "u0" (PVal.r pu.1)
  let g4 := lazyAdd g3 "q" (PVal.r q)
  let g5 := lazyAdd g4 "context_boundaries" (PVal.b pc.1)
  let g6 := if hasElectrons then
      lazyAdd g5 "ke0" (PVal.r ((game - 1) * fel0 * pu.1 * powf pr.1 (-game)))
    else g5
  let pin7 := if st.1 ∧ q ≠ 0 ∧ ¬(q < 0 ∧ 1 < pd.1) then
      pd.2.setReal "parthenon/time" "tlim" (pd.1 * pu.1 / |q|)
    else pd.2
  ⟨pin7, g6, TStatus.complete⟩

/-! Helper lemmas about index-range lists and folded maxima. -/

/-- Membership in the list of a range's indices is range membership. -/
theorem IRange.mem_toList (r : IRange) (a : ℤ) : a ∈ r.toList ↔ r.holds a := by
  unfold IRange.toList IRange.holds
  constructor
  · intro h
    rcases List.mem_map.mp h with ⟨n, hn, he⟩
    rw [List.mem_range] at hn
    constructor <;> omega
  · intro h
    refine List.mem_map.mpr ⟨(a - r.s).toNat, ?_, ?_⟩
    · rw [List.mem_range]
      omega
    · omega

/-- Characterization of the values visited by the MaxDivB reduction. -/
theorem mem_divVals_iff (coords : ℕ → Coords) (ndim : ℕ) (bnds : Bounds)
    (nblocks : ℕ) (md : MeshBData) (x : ℚ) :
    x ∈ divVals coords ndim bnds nblocks md ↔
      ∃ b k j i, b < nblocks ∧ (reduceRanges bnds ndim).holds k j i ∧
        x = divBcell (coords b) (md.fluxB b) ndim k j i := by
  unfold divVals Bounds.holds
  simp only [List.mem_flatMap, List.mem_map, List.mem_range, IRange.mem_toList]
  constructor
  · rintro ⟨b, hb, k, hk, j, hj, i, hi, rfl⟩
    exact ⟨b, k, j, i, hb, ⟨hk, hj, hi⟩, rfl⟩
  · rintro ⟨b, k, j, i, hb, ⟨hk, hj, hi⟩, rfl⟩
    exact ⟨b, hb, k, hk, j, hj, i, hi, rfl⟩

/-- A left fold of max is the base or one of the list's elements. -/
theorem foldl_max_mem (xs : List ℚ) : ∀ x : ℚ,
    xs.foldl max x = x ∨ xs.foldl max x ∈ xs := by
  induction xs with
  | nil => intro x; left; rfl
  | cons a l ih =>
    intro x
    rcases ih (max x a) with h | h
    · rcases max_cases x a with ⟨he, _⟩ | ⟨he, _⟩
      · left; rw [List.foldl_cons, h, he]
      · right; rw [List.foldl_cons, h, he]; exact List.mem_cons_self a l
    · right; exact List.mem_cons_of_mem a h

/-- The base of a left fold of max is below the fold. -/
theorem base_le_foldl_max (xs : List ℚ) : ∀ x : ℚ, x ≤ xs.foldl max x := by
  induction xs with
  | nil => intro x; exact le_refl x
  | cons a l ih =>
    intro x
    exact le_trans (le_max_left x a) (ih (max x a))

/-- Every element of the list is below a left fold of max over it. -/
theorem mem_le_foldl_max (xs : List ℚ) : ∀ x y : ℚ, y ∈ xs → y ≤ xs.foldl max x := by
  induction xs with
  | nil => intro x y h; cases h
  | cons a l ih =>
    intro x y h
    rcases List.mem_cons.mp h with rfl | h
    · exact le_trans (le_max_right x y) (base_le_foldl_max l (max x y))
    · exact ih (max x a) y h

/-- C1: the per-cell divergence estimate shared by AddSource (step 2) and
MaxDivB is the sum over active axes of flux differences over local
spacings; consequently a manufactured flux field whose axis-1 flux
difference is kc times dx1v(i) at every cell, with zero flux differences
along axes 2 and 3, yields the estimate kc at every cell. -/
theorem divBcell_manufactured (G : Coords) (flux : Dir → Fin 3 → ℤ → ℤ → ℤ → ℚ)
    (ndim : ℕ) (kc : ℚ)
    (h1 : ∀ k j i : ℤ, flux Dir.X1 0 k j (i + 1) - flux Dir.X1 0 k j i = kc * G.dx1v i)
    (h2 : ∀ k j i : ℤ, flux Dir.X2 1 k (j + 1) i - flux Dir.X2 1 k j i = 0)
    (h3 : ∀ k j i : ℤ, flux Dir.X3 2 (k + 1) j i - flux Dir.X3 2 k j i = 0)
    (hdx : ∀ i : ℤ, G.dx1v i ≠ 0) :
    ∀ k j i : ℤ, divBcell G flux ndim k j i = kc := by
  intro k j i
  simp only [divBcell, h1 k j i, h2 k j i, h3 k j i, zero_div, add_zero, ite_self]
  exact mul_div_cancel_right₀ kc (hdx i)

/-- Unit-spacing geometry with vanishing inverse metric, for witnesses. -/
def wCoords : Coords :=
  { gcon := fun _ _ _ _ _ => 0
    gdet := fun _ _ _ => 1
    dx1v := fun _ => 1
    dx2v := fun _ => 1
    dx3v := fun _ => 1 }

/-- Manufactured flux field: the axis-1 flux of B component 1 is the cell
index i, all other fluxes vanish. -/
def wFlux : Dir → Fin 3 → ℤ → ℤ → ℤ → ℚ :=
  fun d _ _ _ i => if d = Dir.X1 then (i : ℚ) else 0

/-- Witness for C1 at the manufactured flux with kc = 1, evaluated at the
cell (0,0,0). -/
theorem divBcell_manufactured_witness : divBcell wCoords wFlux 2 0 0 0 = 1 :=
  divBcell_manufactured wCoords wFlux 2 1
    (by intro k j i; simp [wFlux, wCoords])
    (by intro k j i; simp [wFlux])
    (by intro k j i; simp [wFlux])
    (by intro i; norm_num [wCoords]) 0 0 0

/-- C4: MaxDivB returns exactly 0 when ndim < 2; otherwise, whenever there
is at least one block and the reduced ranges (last layer dropped along
axes 1 and 2 always, along axis 3 only when ndim > 2) are nonempty, it
returns the maximum of the per-cell divergence estimates: it equals the
estimate at some included cell of some block and bounds all of them. -/
theorem maxDivB_is_reduced_max (coords : ℕ → Coords) (ndim : ℕ) (bnds : Bounds)
    (nblocks : ℕ) (md : MeshBData) :
    (ndim < 2 → maxDivB coords ndim bnds nblocks md = 0)
    ∧ (2 ≤ ndim → 0 < nblocks →
        (reduceRanges bnds ndim).kb.s ≤ (reduceRanges bnds ndim).kb.e →
        (reduceRanges bnds ndim).jb.s ≤ (reduceRanges bnds ndim).jb.e →
        (reduceRanges bnds ndim).ib.s ≤ (reduceRanges bnds ndim).ib.e →
        (∃ b k j i, b < nblocks ∧ (reduceRanges bnds ndim).holds k j i ∧
            maxDivB coords ndim bnds nblocks md
              = divBcell (coords b) (md.fluxB b) ndim k j i)
        ∧ ∀ b k j i, b < nblocks → (reduceRanges bnds ndim).holds k j i →
            divBcell (coords b) (md.fluxB b) ndim k j i
              ≤ maxDivB coords ndim bnds nblocks md) := by
  constructor
  · intro h
    simp [maxDivB, h]
  · intro h2 hb hk hj hi
    have hnlt : ¬ ndim < 2 := by omega
    set r := reduceRanges bnds ndim with hr
    have hmem : divBcell (coords 0) (md.fluxB 0) ndim r.kb.s r.jb.s r.ib.s
        ∈ divVals coords ndim bnds nblocks md := by
      rw [mem_divVals_iff]
      exact ⟨0, r.kb.s, r.jb.s, r.ib.s, hb,
        ⟨⟨le_refl _, hk⟩, ⟨le_refl _, hj⟩, ⟨le_refl _, hi⟩⟩, rfl⟩
    have hne : divVals coords ndim bnds nblocks md ≠ [] :=
      List.ne_nil_of_mem hmem
    rcases hv : divVals coords ndim bnds nblocks md with _ | ⟨x, xs⟩
    · exact absurd hv hne
    · have hval : maxDivB coords ndim bnds nblocks md = xs.foldl max x := by
        simp [maxDivB, hnlt, hv]
      constructor
      · have := foldl_max_mem xs x
        have hin : maxDivB coords ndim bnds nblocks md
            ∈ divVals coords ndim bnds nblocks md := by
          rw [hv, hval]
          rcases this with h | h
          · rw [h]; exact List.mem_cons_self x xs
          · exact List.mem_cons_of_mem x h
        rcases (mem_divVals_iff coords ndim bnds nblocks md _).mp hin
          with ⟨b, k, j, i, hbn, hcell, heq⟩
        exact ⟨b, k, j, i, hbn, hcell, heq⟩
      · intro b k j i hbn hcell
        have hin : divBcell (coords b) (md.fluxB b) ndim k j i
            ∈ divVals coords ndim bnds nblocks md := by
          rw [mem_divVals_iff]
          exact ⟨b, k, j, i, hbn, hcell, rfl⟩
        rw [hv] at hin
        rw [hval]
        rcases List.mem_cons.mp hin with rfl | hin
        · exact base_le_foldl_max xs _
        · exact mem_le_foldl_max xs x _ hin

/-- Mesh data whose axis-1 B flux decreases with i (so every divergence
estimate is -1) and whose other fields vanish, for witnesses. -/
def wMdNeg : MeshBData :=
  { consB := fun _ _ _ _ _ => 0
    primsB := fun _ _ _ _ _ => 0
    consPsi := fun _ _ _ _ => 0
    primsPsi := fun _ _ _ _ => 0
    fluxB := fun _ d _ _ _ i => if d = Dir.X1 then -(i : ℚ) else 0
    fluxPsi := fun _ _ _ _ _ => 0 }

/-- Bounds with two cells along each axis. -/
def wBounds : Bounds := ⟨⟨0, 1⟩, ⟨0, 1⟩, ⟨0, 1⟩⟩

/-- Witness for C4 at ndim = 2, one block, two interior cells per axis. -/
theorem maxDivB_is_reduced_max_witness :
    (∃ b k j i, b < 1 ∧ (reduceRanges wBounds 2).holds k j i ∧
        maxDivB (fun _ => wCoords) 2 wBounds 1 wMdNeg
          = divBcell wCoords (wMdNeg.fluxB b) 2 k j i)
    ∧ ∀ b k j i, b < 1 → (reduceRanges wBounds 2).holds k j i →
        divBcell wCoords (wMdNeg.fluxB b) 2 k j i
          ≤ maxDivB (fun _ => wCoords) 2 wBounds 1 wMdNeg :=
  (maxDivB_is_reduced_max (fun _ => wCoords) 2 wBounds 1 wMdNeg).2
    (by norm_num) (by norm_num)
    (by norm_num [reduceRanges, wBounds])
    (by norm_num [reduceRanges, wBounds])
    (by norm_num [reduceRanges, wBounds])

/-- C10: the MaxDivB reduction maximizes the signed estimate (no absolute
value is taken), so a state whose divergence estimate is negative at every
included cell reports a non-positive maximum. -/
theorem maxDivB_signed_nonpos (coords : ℕ → Coords) (ndim : ℕ) (bnds : Bounds)
    (nblocks : ℕ) (md : MeshBData)
    (hneg : ∀ b k j i, b < nblocks → (reduceRanges bnds ndim).holds k j i →
        divBcell (coords b) (md.fluxB b) ndim k j i < 0) :
    maxDivB coords ndim bnds nblocks md ≤ 0 := by
  by_cases h : ndim < 2
  · simp [maxDivB, h]
  · rcases hv : divVals coords ndim bnds nblocks md with _ | ⟨x, xs⟩
    · simp [maxDivB, h, hv]
    · have hval : maxDivB coords ndim bnds nblocks md = xs.foldl max x := by
        simp [maxDivB, h, hv]
      have hin : maxDivB coords ndim bnds nblocks md
          ∈ divVals coords ndim bnds nblocks md := by
        rw [hv, hval]
        rcases foldl_max_mem xs x with he | he
        · rw [he]; exact List.mem_cons_self x xs
        · exact List.mem_cons_of_mem x he
      rcases (mem_divVals_iff coords ndim bnds nblocks md _).mp hin
        with ⟨b, k, j, i, hbn, hcell, heq⟩
      rw [heq]
      exact le_of_lt (hneg b k j i hbn hcell)

/-- Witness for C10: the all-negative manufactured state reports a
non-positive maximum. -/
theorem maxDivB_signed_nonpos_witness :
    maxDivB (fun _ => wCoords) 2 wBounds 1 wMdNeg ≤ 0 :=
  maxDivB_signed_nonpos (fun _ => wCoords) 2 wBounds 1 wMdNeg
    (by
      intro b k j i hb hcell
      norm_num [divBcell, wCoords, wMdNeg])

/-- C7: the per-stage task list contains the next-timestep-estimation task
exactly on the final integrator stage, and the refinement-condition check
exactly on the final stage of an adaptive mesh; earlier stages contain
neither. -/
theorem makeTaskList_final_stage_tasks (stage nstages : ℕ) (adaptive : Bool) :
    (TaskKind.estimateNewDt ∈ (makeTaskList stage nstages adaptive).tasks
      ↔ stage = nstages)
    ∧ (TaskKind.tagRefine ∈ (makeTaskList stage nstages adaptive).tasks
      ↔ stage = nstages ∧ adaptive = true) := by
  by_cases h : stage = nstages
  · cases adaptive <;> simp [makeTaskList, h]
  · cases adaptive <;> simp [makeTaskList, h]

/-- C5: UtoP writes, at every cell of the requested domain, each primitive
B component as the conserved component divided by the cell-centered metric
determinant, and primitive psi likewise; hence when the conserved state
was built as a primitive state times a nowhere-zero determinant, UtoP
reproduces that primitive state exactly. -/
theorem utoP_div_roundtrip (G : Coords) (bnds : Bounds) (rc : BlockData)
    (P : Fin 3 → ℤ → ℤ → ℤ → ℚ) (psiP : ℤ → ℤ → ℤ → ℚ)
    (hB : ∀ v : Fin 3, ∀ k j i : ℤ,
        rc.consB v k j i = P v k j i * G.gdet Loci.center j i)
    (hpsi : ∀ k j i : ℤ, rc.consPsi k j i = psiP k j i * G.gdet Loci.center j i)
    (hg : ∀ j i : ℤ, G.gdet Loci.center j i ≠ 0) :
    ∀ k j i : ℤ, bnds.holds k j i →
      (∀ v : Fin 3,
        (utoP G bnds rc).primsB v k j i
            = rc.consB v k j i / G.gdet Loci.center j i
        ∧ (utoP G bnds rc).primsB v k j i = P v k j i)
      ∧ (utoP G bnds rc).primsPsi k j i
            = rc.consPsi k j i / G.gdet Loci.center j i
      ∧ (utoP G bnds rc).primsPsi k j i = psiP k j i := by
  intro k j i hin
  refine ⟨fun v => ⟨?_, ?_⟩, ?_, ?_⟩
  · simp [utoP, hin]
  · simp only [utoP, if_pos hin, hB v k j i]
    exact mul_div_cancel_right₀ (P v k j i) (hg j i)
  · simp [utoP, hin]
  · simp only [utoP, if_pos hin, hpsi k j i]
    exact mul_div_cancel_right₀ (psiP k j i) (hg j i)

/-- Geometry with constant cell-centered determinant 2, for witnesses. -/
def wCoords2 : Coords :=
  { gcon := fun _ _ _ _ _ => 0
    gdet := fun _ _ _ => 2
    dx1v := fun _ => 1
    dx2v := fun _ => 1
    dx3v := fun _ => 1 }

/-- Block whose conserved fields equal a unit primitive state times the
determinant 2, with stale primitive fields. -/
def wBlock : BlockData :=
  { consB := fun _ _ _ _ => 2
    primsB := fun _ _ _ _ => 0
    consPsi := fun _ _ _ => 2
    primsPsi := fun _ _ _ => 0 }

/-- Witness for C5: at cell (0,0,0) of the two-cell bounds, UtoP divides by
the determinant and recovers the unit primitive state. -/
theorem utoP_div_roundtrip_witness :
    ((∀ v : Fin 3,
        (utoP wCoords2 wBounds wBlock).primsB v 0 0 0
            = wBlock.consB v 0 0 0 / wCoords2.gdet Loci.center 0 0
        ∧ (utoP wCoords2 wBounds wBlock).primsB v 0 0 0 = 1)
      ∧ (utoP wCoords2 wBounds wBlock).primsPsi 0 0 0
            = wBlock.consPsi 0 0 0 / wCoords2.gdet Loci.center 0 0
      ∧ (utoP wCoords2 wBounds wBlock).primsPsi 0 0 0 = 1) :=
  utoP_div_roundtrip wCoords2 wBounds wBlock
    (fun _ _ _ _ => 1) (fun _ _ _ => 1)
    (by intro v k j i; norm_num [wBlock, wCoords2])
    (by intro k j i; norm_num [wBlock, wCoords2])
    (by intro j i; norm_num [wCoords2])
    0 0 0 (by norm_num [wBounds, Bounds.holds, IRange.holds])

/-- Counterexample to C3 as stated: UtoP is not a no-op - the source has no
dimensionality check in UtoP, so (in any number of dimensions, including
ndim = 1) it overwrites the primitive fields.  At this concrete input the
primitive B changes from 0 to 1/2. -/
theorem utoP_not_noop_counterexample :
    (utoP wCoords2 wBounds wBlock).primsB 0 0 0 0 ≠ wBlock.primsB 0 0 0 0 := by
  norm_num [utoP, wBlock, wCoords2, wBounds, Bounds.holds, IRange.holds]

/-- Mesh data with all fields zero, for the low-dimension witness. -/
def wMdZero : MeshBData :=
  { consB := fun _ _ _ _ _ => 0
    primsB := fun _ _ _ _ _ => 0
    consPsi := fun _ _ _ _ => 0
    primsPsi := fun _ _ _ _ => 0
    fluxB := fun _ _ _ _ _ _ => 0
    fluxPsi := fun _ _ _ _ _ => 0 }

/-- C3 amended: when ndim < 2, AddSource returns success immediately with
both containers unchanged; UtoP, by contrast, is not gated on the
dimension - it performs the conserved-to-primitive division over the
requested domain regardless of ndim. -/
theorem addSource_noop_lowdim_utoP_acts (coords : ℕ → Coords) (sqrt : ℚ → ℚ)
    (ndim : ℕ) (lambda : ℚ) (bnds : Bounds) (nblocks : ℕ) (md mdudt : MeshBData)
    (G : Coords) (dom : Bounds) (rc : BlockData)
    (h : ndim < 2) :
    addSource coords sqrt ndim lambda bnds nblocks md mdudt
        = (md, mdudt, TStatus.complete)
    ∧ ∀ k j i : ℤ, dom.holds k j i →
        (∀ v : Fin 3, (utoP G dom rc).primsB v k j i
            = rc.consB v k j i / G.gdet Loci.center j i)
        ∧ (utoP G dom rc).primsPsi k j i
            = rc.consPsi k j i / G.gdet Loci.center j i := by
  constructor
  · simp [addSource, h]
  · intro k j i hin
    exact ⟨fun v => by simp [utoP, hin], by simp [utoP, hin]⟩

/-- Witness for the amended C3 at ndim = 1. -/
theorem addSource_noop_lowdim_utoP_acts_witness :
    addSource (fun _ => wCoords2) id 1 0 wBounds 1 wMdZero wMdZero
        = (wMdZero, wMdZero, TStatus.complete)
    ∧ ∀ k j i : ℤ, wBounds.holds k j i →
        (∀ v : Fin 3, (utoP wCoords2 wBounds wBlock).primsB v k j i
            = wBlock.consB v k j i / wCoords2.gdet Loci.center j i)
        ∧ (utoP wCoords2 wBounds wBlock).primsPsi k j i
            = wBlock.consPsi k j i / wCoords2.gdet Loci.center j i :=
  addSource_noop_lowdim_utoP_acts (fun _ => wCoords2) id 1 0 wBounds 1
    wMdZero wMdZero wCoords2 wBounds wBlock (by norm_num)

/-- Bounds selecting the single cell (0,0,0). -/
def uBounds : Bounds := ⟨⟨0, 0⟩, ⟨0, 0⟩, ⟨0, 0⟩⟩

/-- Geometry for the C2 failing input: gcon00 = -1 (lapse 1 under the
identity square root), gcon(1,1) = 1 so the axis-1 psi-flux gradient feeds
component V1 of the B source, everything else zero. -/
def c2Coords : Coords :=
  { gcon := fun _ _ _ a b =>
      if a = 0 ∧ b = 0 then -1 else if a = 1 ∧ b = 1 then 1 else 0
    gdet := fun _ _ _ => 1
    dx1v := fun _ => 1
    dx2v := fun _ => 1
    dx3v := fun _ => 1 }

/-- State snapshot for the C2 failing input: all cell data zero, with a
unit psi flux through the right x1 face of cell (0,0,0). -/
def c2Md : MeshBData :=
  { wMdZero with
    fluxPsi := fun _ d _ _ i => if d = Dir.X1 ∧ i = 1 then 1 else 0 }

/-- C2 (code bug, evaluated at the failing input): AddSource packs B_DU
from md, the input state (b_cd.cpp line 144), not from mdudt, so the B
source increment lands in the input state snapshot's cons.B - here it
changes from 0 to 1 at cell (0,0,0) - while the rate-of-change snapshot's
cons.B stays untouched, contradicting the claimed frame effect. -/
theorem addSource_mutates_input_consB :
    (addSource (fun _ => c2Coords) id 2 (1 / 10) uBounds 1 c2Md wMdZero).1.consB 0 0 0 0 0
        ≠ c2Md.consB 0 0 0 0 0
    ∧ (addSource (fun _ => c2Coords) id 2 (1 / 10) uBounds 1 c2Md wMdZero).2.1.consB 0 0 0 0 0
        = wMdZero.consB 0 0 0 0 0 := by
  constructor
  · norm_num [addSource, bIncr, divBcell, c2Coords, c2Md, wMdZero, uBounds,
      Bounds.holds, IRange.holds, vIdx]
  · rfl

/-- Formula for the psi rate-of-change increment exactly as claim C6 words
it (spec-side definition, for comparison with the source): state's
conserved B component 1 times the axis-1 lapse-quantity difference over
dx1v at the first-axis index, plus conserved B component 2 times the
axis-2 lapse-quantity difference over dx2v at the SECOND-axis index j,
minus damping times alpha times the current conserved psi. -/
def psiIncrClaimed (G : Coords) (sqrt : ℚ → ℚ) (lambda : ℚ)
    (consB : Fin 3 → ℤ → ℤ → ℤ → ℚ) (consPsi : ℤ → ℤ → ℤ → ℚ)
    (k j i : ℤ) : ℚ :=
  consB 0 k j i * dalpha1 G sqrt j i
    + consB 1 k j i *
      (((1 / sqrt (-(G.gcon Loci.face2 (j + 1) i 0 0))) / G.gdet Loci.face2 (j + 1) i
        - (1 / sqrt (-(G.gcon Loci.face2 j i 0 0))) / G.gdet Loci.face2 j i)
        / G.dx2v j)
    - (1 / sqrt (-(G.gcon Loci.center j i 0 0))) * lambda * consPsi k j i

/-- Bounds selecting the single cell (k,j,i) = (0,1,0), where the two axis
indices differ. -/
def c6Bounds : Bounds := ⟨⟨0, 0⟩, ⟨1, 1⟩, ⟨0, 0⟩⟩

/-- Geometry for C6 part (a): vanishing gcon spatial entries (so the B
source increment is zero), gdet jumping across face 2 (so the face-2
lapse-quantity gradient is nonzero), and dx2v taking different values at
indices 0 and 1. -/
def c6aCoords : Coords :=
  { gcon := fun _ _ _ a b => if a = 0 ∧ b = 0 then -1 else 0
    gdet := fun loc j _ => if loc = Loci.face2 ∧ j = 2 then 1 else 1 / 2
    dx1v := fun _ => 1
    dx2v := fun x => if x = 0 then 1 else 2
    dx3v := fun _ => 1 }

/-- State for C6 part (a): conserved B component 2 is one, all else zero. -/
def c6aMd : MeshBData :=
  { wMdZero with consB := fun _ v _ _ _ => if v = 1 then 1 else 0 }

/-- Geometry for C6 part (b): as in part (a) but with uniform dx2v (so the
spacing-index discrepancy vanishes) and with gcon(2,2) = 1 at cell
centers, so the axis-2 psi-flux gradient feeds the B component 2 source
increment. -/
def c6bCoords : Coords :=
  { gcon := fun loc _ _ a b =>
      if a = 0 ∧ b = 0 then -1
      else if loc = Loci.center ∧ a = 2 ∧ b = 2 then 1 else 0
    gdet := fun loc j _ => if loc = Loci.face2 ∧ j = 2 then 1 else 1 / 2
    dx1v := fun _ => 1
    dx2v := fun _ => 1
    dx3v := fun _ => 1 }

/-- State for C6 part (b): all cell data zero, with a unit psi flux through
the upper x2 face of cell (0,1,0). -/
def c6bMd : MeshBData :=
  { wMdZero with
    fluxPsi := fun _ d _ j _ => if d = Dir.X2 ∧ j = 2 then 1 else 0 }

/-- Counterexample to C6 as stated: (a) the source divides the second
lapse-gradient term by dx2v(i), the axis-2 spacing at the FIRST-axis
index (b_cd.cpp line 183), not dx2v(j): at cell (0,1,0) with dx2v(0) = 1
and dx2v(1) = 2 the actual psi increment of AddSource differs from the
claimed formula; and (b) the B values entering the psi update are read
through the B_U pack, which aliases the cons.B data just incremented by
the VLOOP above, so they are not the pre-call conserved B: with zero
initial B but a nonzero B source increment the actual psi increment again
differs from the claimed formula. -/
theorem psi_update_counterexample :
    ((addSource (fun _ => c6aCoords) id 2 0 c6Bounds 1 c6aMd wMdZero).2.1.consPsi 0 0 1 0
        - wMdZero.consPsi 0 0 1 0)
      ≠ psiIncrClaimed c6aCoords id 0 (c6aMd.consB 0) (c6aMd.consPsi 0) 0 1 0
    ∧ ((addSource (fun _ => c6bCoords) id 2 0 c6Bounds 1 c6bMd wMdZero).2.1.consPsi 0 0 1 0
        - wMdZero.consPsi 0 0 1 0)
      ≠ psiIncrClaimed c6bCoords id 0 (c6bMd.consB 0) (c6bMd.consPsi 0) 0 1 0 := by
  constructor
  · norm_num [addSource, psiIncr, psiIncrClaimed, bIncr, divBcell, dalpha1,
      dalpha2, c6aCoords, c6aMd, wMdZero, c6Bounds, Bounds.holds, IRange.holds,
      vIdx]
  · norm_num [addSource, psiIncr, psiIncrClaimed, bIncr, divBcell, dalpha1,
      dalpha2, c6bCoords, c6bMd, wMdZero, c6Bounds, Bounds.holds, IRange.holds,
      vIdx, Fin.ext_iff]

/-- C6 amended: for every interior cell of every included block with
ndim >= 2, AddSource adds to psi's rate of change: the B components as
read back through the pack aliasing the state's conserved B (so including
the same-cell B source increments bIncr) times the face-1 and face-2
lapse-quantity gradients - the face-2 gradient divided by the axis-2
spacing evaluated at the FIRST-axis index i (dalpha2, from b_cd.cpp line
183) - minus damping times alpha times the current conserved psi; no
third-axis lapse-gradient term is added. -/
theorem psi_update_formula (coords : ℕ → Coords) (sqrt : ℚ → ℚ) (ndim : ℕ)
    (lambda : ℚ) (bnds : Bounds) (nblocks : ℕ) (md mdudt : MeshBData)
    (b : ℕ) (k j i : ℤ) (h2 : 2 ≤ ndim) (hb : b < nblocks)
    (hcell : bnds.holds k j i) :
    (addSource coords sqrt ndim lambda bnds nblocks md mdudt).2.1.consPsi b k j i
      = mdudt.consPsi b k j i
        + ((md.consB b 0 k j i
              + bIncr (coords b) sqrt ndim (md.fluxB b) (md.fluxPsi b) 0 k j i)
            * dalpha1 (coords b) sqrt j i
          + (md.consB b 1 k j i
              + bIncr (coords b) sqrt ndim (md.fluxB b) (md.fluxPsi b) 1 k j i)
            * dalpha2 (coords b) sqrt j i
          - (1 / sqrt (-((coords b).gcon Loci.center j i 0 0))) * lambda
            * md.consPsi b k j i) := by
  have hnlt : ¬ ndim < 2 := by omega
  simp [addSource, hnlt, hb, hcell, psiIncr]

/-- Witness for the amended C6 at the part (b) concrete input. -/
theorem psi_update_formula_witness :
    (addSource (fun _ => c6bCoords) id 2 0 c6Bounds 1 c6bMd wMdZero).2.1.consPsi 0 0 1 0
      = wMdZero.consPsi 0 0 1 0
        + ((c6bMd.consB 0 0 0 1 0
              + bIncr c6bCoords id 2 (c6bMd.fluxB 0) (c6bMd.fluxPsi 0) 0 0 1 0)
            * dalpha1 c6bCoords id 1 0
          + (c6bMd.consB 0 1 0 1 0
              + bIncr c6bCoords id 2 (c6bMd.fluxB 0) (c6bMd.fluxPsi 0) 1 0 1 0)
            * dalpha2 c6bCoords id 1 0
          - (1 / id (-(c6bCoords.gcon Loci.center 1 0 0 0))) * 0
            * c6bMd.consPsi 0 0 1 0) :=
  psi_update_formula (fun _ => c6bCoords) id 2 0 c6Bounds 1 c6bMd wMdZero
    0 0 1 0 (by norm_num) (by norm_num)
    (by norm_num [c6Bounds, Bounds.holds, IRange.holds])

/-! Helper lemmas about parameter tables. -/

/-- Looking up a present key is unchanged by appending an entry. -/
theorem getP_addP_of_hasKey (p : ParamsT) (k k2 : String) (v : PVal)
    (h : hasKey p k = true) : getP (addP p k2 v) k = getP p k := by
  unfold getP addP
  unfold hasKey at h
  rw [List.find?_append, Option.or_of_isSome h]

/-- Appending an entry makes its key present. -/
theorem hasKey_addP_self (p : ParamsT) (k : String) (v : PVal) :
    hasKey (addP p k v) k = true := by
  unfold hasKey addP
  rw [List.find?_append]
  cases hf : List.find? (fun kv => kv.1 == k) p with
  | none => simp [List.find?]
  | some x => simp [Option.or]

/-- Looking up a present key is unchanged by a lazy add. -/
theorem getP_lazyAdd_of_hasKey (p : ParamsT) (k k2 : String) (v : PVal)
    (h : hasKey p k = true) : getP (lazyAdd p k2 v) k = getP p k := by
  unfold lazyAdd
  by_cases h2 : hasKey p k2
  · rw [if_pos h2]
  · rw [if_neg h2]
    exact getP_addP_of_hasKey p k k2 v h

/-- A present key stays present under a lazy add. -/
theorem hasKey_lazyAdd_of_hasKey (p : ParamsT) (k k2 : String) (v : PVal)
    (h : hasKey p k = true) : hasKey (lazyAdd p k2 v) k = true := by
  unfold lazyAdd
  by_cases h2 : hasKey p k2
  · rw [if_pos h2]; exact h
  · rw [if_neg h2]
    unfold hasKey addP
    unfold hasKey at h
    rw [List.find?_append, Option.or_of_isSome h]
    exact h

/-- After a lazy add of a key, that key is present. -/
theorem hasKey_lazyAdd_self (p : ParamsT) (k : String) (v : PVal) :
    hasKey (lazyAdd p k v) k = true := by
  unfold lazyAdd
  by_cases h2 : hasKey p k
  · rw [if_pos h2]; exact h2
  · rw [if_neg h2]; exact hasKey_addP_self p k v

/-- Folding a list of lazy adds over a table. -/
def lazyAddAll (p : ParamsT) : List (String × PVal) → ParamsT
  | [] => p
  | kv :: rest => lazyAddAll (lazyAdd p kv.1 kv.2) rest

/-- Looking up a present key is unchanged by any chain of lazy adds. -/
theorem getP_lazyAddAll_of_hasKey (l : List (String × PVal)) (p : ParamsT)
    (k : String) (h : hasKey p k = true) : getP (lazyAddAll p l) k = getP p k := by
  induction l generalizing p with
  | nil => rfl
  | cons kv rest ih =>
    rw [lazyAddAll, ih _ (hasKey_lazyAdd_of_hasKey p k kv.1 kv.2 h),
      getP_lazyAdd_of_hasKey p k kv.1 kv.2 h]

/-- A present key stays present under any chain of lazy adds. -/
theorem hasKey_lazyAddAll_of_hasKey (l : List (String × PVal)) (p : ParamsT)
    (k : String) (h : hasKey p k = true) : hasKey (lazyAddAll p l) k = true := by
  induction l generalizing p with
  | nil => exact h
  | cons kv rest ih =>
    rw [lazyAddAll]
    exact ih _ (hasKey_lazyAdd_of_hasKey p k kv.1 kv.2 h)

/-- A key listed in a chain of lazy adds is present afterwards. -/
theorem hasKey_lazyAddAll_of_mem (l : List (String × PVal)) (p : ParamsT)
    (k : String) (h : k ∈ l.map Prod.fst) : hasKey (lazyAddAll p l) k = true := by
  induction l generalizing p with
  | nil => cases h
  | cons kv rest ih =>
    rw [lazyAddAll]
    rcases List.mem_cons.mp h with he | hin
    · subst he
      exact hasKey_lazyAddAll_of_hasKey rest _ _ (hasKey_lazyAdd_self p _ kv.2)
    · exact ih _ hin

/-- Shape of the GRMHD table produced by InitializeRest: a chain of lazy
adds of the five physics keys, followed by ke0 when Electrons is present. -/
theorem initializeRest_gparams_shape (powf : ℚ → ℚ → ℚ) (pin0 : Pin)
    (g0 : ParamsT) (he : Bool) (fel0 game : ℚ) :
    ∃ a1 a2 a3 a4 a5 a6 : PVal,
      (initializeRest powf pin0 g0 he fel0 game).gparams
        = lazyAddAll g0
            ([("rho0", a1), ("v0", a2), ("u0", a3), ("q", a4),
              ("context_boundaries", a5)]
              ++ (if he then [("ke0", a6)] else [])) := by
  cases he
  · exact ⟨_, _, _, _, _, PVal.b false, rfl⟩
  · exact ⟨_, _, _, _, _, _, rfl⟩

/-- C8: for each of the keys rho0, v0, u0, q and context_boundaries,
InitializeRest adds the key to the GRMHD parameter table only when it is
absent: a value already present under the key is unchanged, and the key is
present afterwards in any case. -/
theorem initializeRest_lazy_params (powf : ℚ → ℚ → ℚ) (pin0 : Pin)
    (g0 : ParamsT) (he : Bool) (fel0 game : ℚ) :
    ∀ key ∈ (["rho0", "v0", "u0", "q", "context_boundaries"] : List String),
      (hasKey g0 key = true →
        getP (initializeRest powf pin0 g0 he fel0 game).gparams key = getP g0 key)
      ∧ hasKey (initializeRest powf pin0 g0 he fel0 game).gparams key = true := by
  intro key hkey
  rcases initializeRest_gparams_shape powf pin0 g0 he fel0 game
    with ⟨a1, a2, a3, a4, a5, a6, hg⟩
  rw [hg]
  constructor
  · intro hk
    exact getP_lazyAddAll_of_hasKey _ g0 key hk
  · refine hasKey_lazyAddAll_of_mem _ g0 key ?_
    cases he <;> simp only [List.map_append, List.map_cons, List.map_nil,
      if_true, if_false, List.mem_append] <;> left <;> simpa using hkey

/-- Table already holding q = 7, for the C8 witness. -/
def gQ : ParamsT := [("q", PVal.r 7)]

/-- Empty input table. -/
def pinEmpty : Pin := ⟨[], []⟩

/-- Witness for C8 at the key q over a table that already holds it. -/
theorem initializeRest_lazy_params_witness :
    getP (initializeRest (fun a _ => a) pinEmpty gQ false 0 0).gparams "q" = getP gQ "q"
    ∧ hasKey (initializeRest (fun a _ => a) pinEmpty gQ false 0 0).gparams "q" = true :=
  ⟨(initializeRest_lazy_params (fun a _ => a) pinEmpty gQ false 0 0 "q"
      (by simp)).1 (by rfl),
   (initializeRest_lazy_params (fun a _ => a) pinEmpty gQ false 0 0 "q"
      (by simp)).2⟩

/-- GetOrAddBoolean never changes the real-parameter table. -/
theorem findReal_getOrAddBool (pin : Pin) (b1 n1 : String) (d : Bool)
    (b2 n2 : String) :
    ((pin.getOrAddBool b1 n1 d).2).findReal b2 n2 = pin.findReal b2 n2 := by
  unfold Pin.getOrAddBool
  cases h : pin.findBool b1 n1 <;> rfl

/-- GetOrAddReal of one key does not change the lookup of a different key. -/
theorem findReal_getOrAddReal_ne (pin : Pin) (b1 n1 : String) (d : ℚ)
    (b2 n2 : String) (h : ((b1, n1) == (b2, n2)) = false) :
    ((pin.getOrAddReal b1 n1 d).2).findReal b2 n2 = pin.findReal b2 n2 := by
  unfold Pin.getOrAddReal
  cases hf : pin.findReal b1 n1
  · unfold Pin.findReal
    rw [List.find?_append]
    have hnone : List.find? (fun kv => kv.1 == (b2, n2)) [((b1, n1), d)] = none := by
      simp [List.find?, h]
    rw [hnone, Option.or_none]
  · rfl

/-- Value of the heating exponent q as InitializeRest reads it: the stored
real at rest/q when present, else its default 0 (rest_conserve.cpp line 15). -/
def qValue (pin : Pin) : ℚ :=
  match pin.findReal "rest" "q" with
  | some x => x
  | none => 0

/-- Reading rest/q after the set_tlim/u0/rho0/v0 defaulting steps sees the
original table's value. -/
theorem findReal_q_of_defaults (pin0 : Pin) :
    Pin.findReal
      ((((pin0.getOrAddBool "rest" "set_tlim" false).2.getOrAddReal
        "rest" "u0" 1).2.getOrAddReal "rest" "rho0" 1).2.getOrAddReal
        "rest" "v0" 1).2 "rest" "q"
    = pin0.findReal "rest" "q" := by
  have h1 : (("rest", "u0") == ("rest", "q")) = false := by decide
  have h2 : (("rest", "rho0") == ("rest", "q")) = false := by decide
  have h3 : (("rest", "v0") == ("rest", "q")) = false := by decide
  rw [findReal_getOrAddReal_ne _ _ _ _ _ _ h3, findReal_getOrAddReal_ne _ _ _ _ _ _ h2,
    findReal_getOrAddReal_ne _ _ _ _ _ _ h1, findReal_getOrAddBool]

/-- Looking up parthenon/time tlim after all six rest defaulting steps sees
the original table's value. -/
theorem findReal_tlim_of_defaults (pin0 : Pin) :
    Pin.findReal
      ((((((pin0.getOrAddBool "rest" "set_tlim" false).2.getOrAddReal
        "rest" "u0" 1).2.getOrAddReal "rest" "rho0" 1).2.getOrAddReal
        "rest" "v0" 1).2.getOrAddBool "rest" "context_boundaries"
        false).2.getOrAddReal "rest" "dyntimes" (1 / 2)).2
      "parthenon/time" "tlim"
    = pin0.findReal "parthenon/time" "tlim" := by
  have h1 : (("rest", "u0") == ("parthenon/time", "tlim")) = false := by decide
  have h2 : (("rest", "rho0") == ("parthenon/time", "tlim")) = false := by decide
  have h3 : (("rest", "v0") == ("parthenon/time", "tlim")) = false := by decide
  have h4 : (("rest", "dyntimes") == ("parthenon/time", "tlim")) = false := by decide
  rw [findReal_getOrAddReal_ne _ _ _ _ _ _ h4, findReal_getOrAddBool,
    findReal_getOrAddReal_ne _ _ _ _ _ _ h3, findReal_getOrAddReal_ne _ _ _ _ _ _ h2,
    findReal_getOrAddReal_ne _ _ _ _ _ _ h1, findReal_getOrAddBool]

/-- C9: the time-limit division dyntimes*u0/|q| is only reached under the
guard set_tlim && q != 0 && !(q < 0 && dyntimes > 1) (rest_conserve.cpp
line 35); whenever q is 0 - in particular when the parameter is absent,
since its default is 0 - the parthenon/time tlim entry is left exactly as
it was and initialization still returns complete. -/
theorem initializeRest_q_guard (powf : ℚ → ℚ → ℚ) (pin0 : Pin) (g0 : ParamsT)
    (he : Bool) (fel0 game : ℚ) (hq : qValue pin0 = 0) :
    (initializeRest powf pin0 g0 he fel0 game).pin.findReal "parthenon/time" "tlim"
        = pin0.findReal "parthenon/time" "tlim"
    ∧ (initializeRest powf pin0 g0 he fel0 game).status = TStatus.complete := by
  refine ⟨?_, rfl⟩
  unfold qValue at hq
  simp only [initializeRest]
  rw [findReal_q_of_defaults pin0]
  rw [if_neg]
  · exact findReal_tlim_of_defaults pin0
  · rintro ⟨-, hne, -⟩
    exact hne hq

/-- Witness for C9 on an empty input table, where q falls back to its
default 0. -/
theorem initializeRest_q_guard_witness :
    (initializeRest (fun a _ => a) pinEmpty [] false 0 0).pin.findReal
        "parthenon/time" "tlim"
      = pinEmpty.findReal "parthenon/time" "tlim"
    ∧ (initializeRest (fun a _ => a) pinEmpty [] false 0 0).status
      = TStatus.complete :=
  initializeRest_q_guard (fun a _ => a) pinEmpty [] false 0 0 (by rfl)
